import Mathlib

/-!
Verification of the sampler benchmarking harness.

Durations (Python floats) are modelled as rationals; fallible Python code
(raising exceptions) is modelled with `Option`/`Except`.
-/

/-- Python `min(x :: xs)`: the builtin folds `min` over the list from the left. -/
def pyMin (x : ℚ) (xs : List ℚ) : ℚ := xs.foldl min x

/-- Python `max(x :: xs)`: the builtin folds `max` over the list from the left. -/
def pyMax (x : ℚ) (xs : List ℚ) : ℚ := xs.foldl max x

/-- Python `statistics.mean`: sum divided by length; raises on an empty list. -/
def pyMean (l : List ℚ) : Option ℚ :=
  if l = [] then none else some (l.sum / l.length)

/-- The `Stats` dataclass: a name tag plus the two phases' duration lists. -/
structure Stats where
  name : String
  warmup : List ℚ
  benchmark : List ℚ

/-- Embedding of `Benchmark._calculate_stats` (src/sampler.py lines 70-75):
`is_warmup_skewed = min(warmup) == warmup[0]`, slice the phase list from that
boolean, take the mean of each sliced phase, return the minimum of the two
means. `min`/`mean` raise on empty lists, hence the `Option`. -/
def calculate_stats (results : Stats) : Option ℚ :=
  match results.warmup, results.benchmark with
  | w0 :: ws, b0 :: bs =>
    let warmup_sliced := if pyMin w0 ws = w0 then ws else w0 :: ws
    let benchmark_sliced := if pyMin b0 bs = b0 then bs else b0 :: bs
    match pyMean warmup_sliced, pyMean benchmark_sliced with
    | some w, some b => some (min w b)
    | _, _ => none
  | _, _ => none

/-- Spec-side phase statistic, written from the claim's words: drop sample 0
if and only if sample 0 equals the phase's minimum (i.e. it is less than or
equal to every sample), then take the mean of the remaining samples. -/
def phaseRepresentative (l : List ℚ) : Option ℚ :=
  match l with
  | [] => none
  | x :: xs => if ∀ y ∈ x :: xs, x ≤ y then pyMean xs else pyMean (x :: xs)

theorem pyMin_le_mem (xs : List ℚ) : ∀ x y : ℚ, y ∈ x :: xs → pyMin x xs ≤ y := by
  induction xs with
  | nil =>
    intro x y hy
    rw [List.mem_singleton] at hy
    subst hy
    simp [pyMin]
  | cons z zs ih =>
    intro x y hy
    have hfold : pyMin x (z :: zs) = pyMin (min x z) zs := rfl
    rw [hfold]
    have hhead : pyMin (min x z) zs ≤ min x z := ih (min x z) (min x z) (List.mem_cons_self _ _)
    rcases List.mem_cons.mp hy with h | h
    · subst h
      exact le_trans hhead (min_le_left _ _)
    · rcases List.mem_cons.mp h with h2 | h2
      · subst h2
        exact le_trans hhead (min_le_right _ _)
      · exact ih (min x z) y (List.mem_cons_of_mem _ h2)

theorem pyMin_mem (xs : List ℚ) : ∀ x : ℚ, pyMin x xs ∈ x :: xs := by
  induction xs with
  | nil => intro x; simp [pyMin]
  | cons z zs ih =>
    intro x
    have hfold : pyMin x (z :: zs) = pyMin (min x z) zs := rfl
    rw [hfold]
    rcases List.mem_cons.mp (ih (min x z)) with h | h
    · rw [h]
      rcases min_choice x z with hc | hc
      · rw [hc]; exact List.mem_cons_self _ _
      · rw [hc]; exact List.mem_cons_of_mem _ (List.mem_cons_self _ _)
    · exact List.mem_cons_of_mem _ (List.mem_cons_of_mem _ h)

theorem pyMin_eq_head_iff (x : ℚ) (xs : List ℚ) :
    pyMin x xs = x ↔ ∀ y ∈ x :: xs, x ≤ y := by
  constructor
  · intro h y hy
    exact h ▸ pyMin_le_mem xs x y hy
  · intro h
    exact le_antisymm (pyMin_le_mem xs x x (List.mem_cons_self _ _))
      (h _ (pyMin_mem xs x))

/-- C1: For every Stats record and each phase (warmup, benchmark) separately,
the aggregator's representative statistic drops sample 0 of that phase if and
only if sample 0 equals that phase's minimum, takes the mean of the remaining
samples of that phase, and returns the smaller of the two phase means. -/
theorem calculate_stats_is_min_of_phase_representatives (s : Stats) (w b : ℚ)
    (hw : phaseRepresentative s.warmup = some w)
    (hb : phaseRepresentative s.benchmark = some b) :
    calculate_stats s = some (min w b) := by
  obtain ⟨nm, warm, bench⟩ := s
  match warm, bench with
  | [], _ => simp [phaseRepresentative] at hw
  | _ :: _, [] => simp [phaseRepresentative] at hb
  | w0 :: ws, b0 :: bs =>
    simp only [phaseRepresentative] at hw hb
    simp only [calculate_stats]
    by_cases hcw : ∀ y ∈ w0 :: ws, w0 ≤ y
    · rw [if_pos hcw] at hw
      rw [if_pos ((pyMin_eq_head_iff w0 ws).mpr hcw)]
      by_cases hcb : ∀ y ∈ b0 :: bs, b0 ≤ y
      · rw [if_pos hcb] at hb
        rw [if_pos ((pyMin_eq_head_iff b0 bs).mpr hcb), hw, hb]
      · rw [if_neg hcb] at hb
        rw [if_neg (fun hmin => hcb ((pyMin_eq_head_iff b0 bs).mp hmin)), hw, hb]
    · rw [if_neg hcw] at hw
      rw [if_neg (fun hmin => hcw ((pyMin_eq_head_iff w0 ws).mp hmin))]
      by_cases hcb : ∀ y ∈ b0 :: bs, b0 ≤ y
      · rw [if_pos hcb] at hb
        rw [if_pos ((pyMin_eq_head_iff b0 bs).mpr hcb), hw, hb]
      · rw [if_neg hcb] at hb
        rw [if_neg (fun hmin => hcb ((pyMin_eq_head_iff b0 bs).mp hmin)), hw, hb]

/-- Witness for C1 at the concrete record with warmup [3, 1, 2] (not skewed,
mean 2) and benchmark [5, 4] (not skewed, mean 9/2). -/
theorem calculate_stats_is_min_of_phase_representatives_witness :
    calculate_stats ⟨"s", [3, 1, 2], [5, 4]⟩ = some (min 2 (9 / 2)) :=
  calculate_stats_is_min_of_phase_representatives ⟨"s", [3, 1, 2], [5, 4]⟩ 2 (9 / 2)
    (by norm_num [phaseRepresentative, pyMean, List.forall_mem_cons]; intro h; simp at h)
    (by norm_num [phaseRepresentative, pyMean, List.forall_mem_cons]; intro h; simp at h)

theorem le_pyMax_mem (xs : List ℚ) : ∀ x y : ℚ, y ∈ x :: xs → y ≤ pyMax x xs := by
  induction xs with
  | nil =>
    intro x y hy
    rw [List.mem_singleton] at hy
    subst hy
    simp [pyMax]
  | cons z zs ih =>
    intro x y hy
    have hfold : pyMax x (z :: zs) = pyMax (max x z) zs := rfl
    rw [hfold]
    have hhead : max x z ≤ pyMax (max x z) zs := ih (max x z) (max x z) (List.mem_cons_self _ _)
    rcases List.mem_cons.mp hy with h | h
    · subst h
      exact le_trans (le_max_left _ _) hhead
    · rcases List.mem_cons.mp h with h2 | h2
      · subst h2
        exact le_trans (le_max_right _ _) hhead
      · exact ih (max x z) y (List.mem_cons_of_mem _ h2)

theorem pyMax_mem (xs : List ℚ) : ∀ x : ℚ, pyMax x xs ∈ x :: xs := by
  induction xs with
  | nil => intro x; simp [pyMax]
  | cons z zs ih =>
    intro x
    have hfold : pyMax x (z :: zs) = pyMax (max x z) zs := rfl
    rw [hfold]
    rcases List.mem_cons.mp (ih (max x z)) with h | h
    · rw [h]
      rcases max_choice x z with hc | hc
      · rw [hc]; exact List.mem_cons_self _ _
      · rw [hc]; exact List.mem_cons_of_mem _ (List.mem_cons_self _ _)
    · exact List.mem_cons_of_mem _ (List.mem_cons_of_mem _ h)

theorem pyMax_eq_head (x : ℚ) (xs : List ℚ) (h : ∀ y ∈ xs, y ≤ x) : pyMax x xs = x := by
  have h1 : pyMax x xs ≤ x := by
    rcases List.mem_cons.mp (pyMax_mem xs x) with hm | hm
    · exact le_of_eq hm
    · exact h _ hm
  exact le_antisymm h1 (le_pyMax_mem xs x x (List.mem_cons_self _ _))

/-- Embedding of one timing loop of `run_benchmark` (src/Utilities.py lines
101-110 and 115-125): the subprocess environment is an oracle assigning to
each invocation index its elapsed time and exit code. Each iteration runs one
subprocess; a non-zero exit code raises `RuntimeError` at once. The result
pairs the outcome with the number of subprocess invocations performed. -/
def runPhase (name : String) (oracle : Nat → ℚ × Int) (start : Nat) :
    Nat → Except String (List ℚ) × Nat
  | 0 => (Except.ok [], 0)
  | n + 1 =>
    if (oracle start).2 ≠ 0 then (Except.error ("Failed to run benchmark " ++ name), 1)
    else
      match runPhase name oracle (start + 1) n with
      | (Except.ok ts, c) => (Except.ok ((oracle start).1 :: ts), c + 1)
      | (Except.error e, c) => (Except.error e, c + 1)

/-- Embedding of the warm-up trim in `run_benchmark` (src/Utilities.py lines
112-113): `if max(warmup) == warmup[0]: warmup.pop(0)`. Python `max` raises on
an empty list, hence the `Option`. -/
def trim_warmup (l : List ℚ) : Option (List ℚ) :=
  match l with
  | [] => none
  | x :: xs => some (if pyMax x xs = x then xs else x :: xs)

/-- Embedding of `run_benchmark` (src/Utilities.py lines 80-131): warm-up loop
of `iterations` runs, conditional trim of the first warm-up sample, then the
measurement loop of `iterations` runs, appended untrimmed. The oracle indexes
subprocess invocations in execution order; the second component counts the
invocations performed. -/
def run_benchmark (name : String) (oracle : Nat → ℚ × Int) (iterations : Nat) :
    Except String (List ℚ × List ℚ) × Nat :=
  match runPhase name oracle 0 iterations with
  | (Except.error e, c) => (Except.error e, c)
  | (Except.ok wts, cw) =>
    match trim_warmup wts with
    | none => (Except.error "max() arg is an empty sequence", cw)
    | some wts2 =>
      match runPhase name oracle iterations iterations with
      | (Except.error e, cb) => (Except.error e, cw + cb)
      | (Except.ok bts, cb) => (Except.ok (wts2, bts), cw + cb)

theorem runPhase_ok (name : String) (oracle : Nat → ℚ × Int) :
    ∀ (fuel start : Nat), (∀ j, j < fuel → (oracle (start + j)).2 = 0) →
    runPhase name oracle start fuel =
      (Except.ok ((List.range fuel).map (fun i => (oracle (start + i)).1)), fuel) := by
  intro fuel
  induction fuel with
  | zero => intro start _; simp [runPhase]
  | succ n ih =>
    intro start h
    have h0 : (oracle (start + 0)).2 = 0 := h 0 (Nat.succ_pos n)
    rw [Nat.add_zero] at h0
    have hrec := ih (start + 1) (fun j hj => by
      have hh := h (j + 1) (Nat.succ_lt_succ hj)
      have he : start + (j + 1) = start + 1 + j := by omega
      rwa [he] at hh)
    have hsucc : ∀ i : Nat, start + 1 + i = start + (i + 1) := fun i => by omega
    simp only [runPhase, h0, ne_eq, not_true_eq_false, if_false]
    rw [hrec]
    simp [List.range_succ_eq_map, List.map_map, Function.comp_def, hsucc]

theorem runPhase_fail (name : String) (oracle : Nat → ℚ × Int) :
    ∀ (fuel start k : Nat), k < fuel →
    (∀ j, j < k → (oracle (start + j)).2 = 0) → (oracle (start + k)).2 ≠ 0 →
    runPhase name oracle start fuel =
      (Except.error ("Failed to run benchmark " ++ name), k + 1) := by
  intro fuel
  induction fuel with
  | zero => intro start k hk _ _; exact absurd hk (Nat.not_lt_zero k)
  | succ n ih =>
    intro start k hk hzero hfail
    cases k with
    | zero =>
      rw [Nat.add_zero] at hfail
      simp only [runPhase]
      rw [if_pos hfail]
    | succ m =>
      have h0 : (oracle (start + 0)).2 = 0 := hzero 0 (Nat.succ_pos m)
      rw [Nat.add_zero] at h0
      have hrec := ih (start + 1) m (Nat.lt_of_succ_lt_succ hk)
        (fun j hj => by
          have hh := hzero (j + 1) (Nat.succ_lt_succ hj)
          have he : start + (j + 1) = start + 1 + j := by omega
          rwa [he] at hh)
        (by
          have he : start + (m + 1) = start + 1 + m := by omega
          rwa [he] at hfail)
      simp only [runPhase, h0, ne_eq, not_true_eq_false, if_false]
      rw [hrec]

theorem run_benchmark_eq_ok (name : String) (oracle : Nat → ℚ × Int)
    (iterations : Nat) (wts wts2 bts : List ℚ) (cw cb : Nat)
    (hw : runPhase name oracle 0 iterations = (Except.ok wts, cw))
    (ht : trim_warmup wts = some wts2)
    (hb : runPhase name oracle iterations iterations = (Except.ok bts, cb)) :
    run_benchmark name oracle iterations = (Except.ok (wts2, bts), cw + cb) := by
  unfold run_benchmark
  rw [hw, hb]
  simp [ht]

/-- C2: For every warm-up timing list with N >= 2 samples where the first
sample is strictly the largest, the runner's post-capture trim removes exactly
that first sample and keeps the other N-1 samples in their original order; the
measurement-phase list is never trimmed at capture time. -/
theorem run_benchmark_trims_only_first_warmup (name : String)
    (oracle : Nat → ℚ × Int) (iterations : Nat)
    (h2 : 2 ≤ iterations)
    (hok : ∀ j, j < 2 * iterations → (oracle j).2 = 0)
    (hstrict : ∀ j, j < iterations → 0 < j → (oracle j).1 < (oracle 0).1) :
    (run_benchmark name oracle iterations).1 =
      Except.ok ((((List.range iterations).map (fun i => (oracle i).1)).tail),
        (List.range iterations).map (fun i => (oracle (iterations + i)).1)) := by
  have hw := runPhase_ok name oracle iterations 0 (fun j hj => by
    have := hok j (by omega)
    simpa using this)
  simp only [Nat.zero_add] at hw
  have hb := runPhase_ok name oracle iterations iterations
    (fun j hj => hok (iterations + j) (by omega))
  obtain ⟨m, rfl⟩ : ∃ m, iterations = m + 1 := ⟨iterations - 1, by omega⟩
  have hcons : (List.range (m + 1)).map (fun i => (oracle i).1) =
      (oracle 0).1 :: (List.map Nat.succ (List.range m)).map (fun i => (oracle i).1) := by
    rw [List.range_succ_eq_map m]; rfl
  have hmax : pyMax (oracle 0).1 ((List.map Nat.succ (List.range m)).map (fun i => (oracle i).1)) =
      (oracle 0).1 := by
    apply pyMax_eq_head
    intro y hy
    simp only [List.map_map, List.mem_map, List.mem_range] at hy
    obtain ⟨i, hi, rfl⟩ := hy
    exact le_of_lt (hstrict (Nat.succ i) (Nat.succ_lt_succ hi) (Nat.succ_pos i))
  have htrim : trim_warmup ((List.range (m + 1)).map (fun i => (oracle i).1)) =
      some (((List.range (m + 1)).map (fun i => (oracle i).1)).tail) := by
    rw [hcons]
    simp only [trim_warmup, List.tail_cons]
    rw [if_pos hmax]
  rw [run_benchmark_eq_ok name oracle (m + 1) _ _ _ (m + 1) (m + 1) hw htrim hb]

/-- Witness for C2: two iterations, warm-up samples 5 then 1 (first strictly
largest), all exit codes zero; the warm-up list is trimmed to its tail and the
measurement list is returned untrimmed. -/
theorem run_benchmark_trims_only_first_warmup_witness :
    (run_benchmark "bm" (fun i => (if i = 0 then 5 else 1, 0)) 2).1 =
      Except.ok ([(1 : ℚ)], [(1 : ℚ), 1]) := by
  have h := run_benchmark_trims_only_first_warmup "bm"
    (fun i => (if i = 0 then 5 else 1, 0)) 2
    (by norm_num) (fun j _ => rfl)
    (by
      intro j hj h0
      interval_cases j
      norm_num)
  simpa [List.range_succ] using h

/-- C7: During both the warm-up and measurement loops of the benchmark runner,
if any single run's exit code is non-zero, the runner raises a runtime error
immediately: the invocation count stops at the failing run (no further
iterations execute) and no result mapping is returned. -/
theorem run_benchmark_aborts_on_nonzero_exit (name : String)
    (oracle : Nat → ℚ × Int) (iterations k : Nat)
    (hk : k < 2 * iterations)
    (hzero : ∀ j, j < k → (oracle j).2 = 0)
    (hfail : (oracle k).2 ≠ 0) :
    run_benchmark name oracle iterations =
      (Except.error ("Failed to run benchmark " ++ name), k + 1) := by
  by_cases hcase : k < iterations
  · have hw := runPhase_fail name oracle iterations 0 k hcase
      (fun j hj => by simpa using hzero j hj) (by simpa using hfail)
    unfold run_benchmark
    rw [hw]
  · have hwok := runPhase_ok name oracle iterations 0 (fun j hj => by
      have := hzero j (by omega)
      simpa using this)
    simp only [Nat.zero_add] at hwok
    have hiter : 1 ≤ iterations := by omega
    obtain ⟨m, hm⟩ : ∃ m, iterations = m + 1 := ⟨iterations - 1, by omega⟩
    have hb := runPhase_fail name oracle iterations iterations (k - iterations)
      (by omega)
      (fun j hj => hzero (iterations + j) (by omega))
      (by
        have he : iterations + (k - iterations) = k := by omega
        rwa [he])
    have hcons : (List.range iterations).map (fun i => (oracle i).1) =
        (oracle 0).1 :: (List.map Nat.succ (List.range m)).map (fun i => (oracle i).1) := by
      rw [hm, List.range_succ_eq_map m]; rfl
    have htrim : ∃ l, trim_warmup ((List.range iterations).map (fun i => (oracle i).1)) = some l := by
      rw [hcons]
      exact ⟨_, rfl⟩
    obtain ⟨l, htrim⟩ := htrim
    unfold run_benchmark
    rw [hwok, hb]
    simp only [htrim]
    have hcount : iterations + (k - iterations + 1) = k + 1 := by omega
    rw [hcount]

/-- Witness for C7: two iterations, the second warm-up run (invocation index 1)
exits with code 1; the runner errors after exactly two invocations. -/
theorem run_benchmark_aborts_on_nonzero_exit_witness :
    run_benchmark "bm" (fun i => ((1 : ℚ), if i = 1 then 1 else 0)) 2 =
      (Except.error ("Failed to run benchmark " ++ "bm"), 1 + 1) :=
  run_benchmark_aborts_on_nonzero_exit "bm" (fun i => ((1 : ℚ), if i = 1 then 1 else 0)) 2 1
    (by norm_num) (by decide) (by decide)

/-- JSON values as produced by `json.load`. -/
inductive JValue where
  | null : JValue
  | bool (b : Bool) : JValue
  | num (q : ℚ) : JValue
  | str (s : String) : JValue
  | arr (elems : List JValue) : JValue
  | obj (fields : List (String × JValue)) : JValue

/-- Lookup of a key among an object's fields (Python dicts from `json.load`
have unique keys). -/
def lookupField : List (String × JValue) → String → Option JValue
  | [], _ => none
  | (k, x) :: rest, key => if k = key then some x else lookupField rest key

/-- Python subscript `v[key]`: succeeds only on an object holding the key;
a missing key raises `KeyError` and a non-object raises `TypeError`. -/
def JValue.item (v : JValue) (key : String) : Option JValue :=
  match v with
  | JValue.obj fields => lookupField fields key
  | _ => none

/-- A `Stats` object as built by `parse_stats`: the name tag plus the raw JSON
values stored under the "warmup" and "benchmark" keys (the code stores them
without further validation). -/
structure RawStats where
  name : String
  warmup : JValue
  benchmark : JValue

/-- Embedding of `Benchmark.parse_stats` (src/sampler.py lines 33-48): index
the top-level object at "nuitka" and "cpython", index each at "warmup" and
"benchmark", and package the results; any failed subscript raises. -/
def parse_stats (stats : JValue) : Option (RawStats × RawStats) :=
  match stats.item "nuitka", stats.item "cpython" with
  | some n, some c =>
    match n.item "warmup", n.item "benchmark", c.item "warmup", c.item "benchmark" with
    | some nw, some nb, some cw, some cb =>
      some (⟨"nuitka", nw, nb⟩, ⟨"cpython", cw, cb⟩)
    | _, _, _, _ => none
  | _, _ => none

/-- Shape actually required by `parse_stats`: both top-level keys present,
each holding "warmup" and "benchmark" entries of any kind. -/
def stats_shape_ok (stats : JValue) : Prop :=
  ∃ n c, stats.item "nuitka" = some n ∧ stats.item "cpython" = some c ∧
    (n.item "warmup").isSome = true ∧ (n.item "benchmark").isSome = true ∧
    (c.item "warmup").isSome = true ∧ (c.item "benchmark").isSome = true

/-- A result-file content that violates the claimed invariant (its "warmup"
and "benchmark" arrays are all empty) yet is accepted by the parser. -/
def emptyPhasesJson : JValue :=
  JValue.obj [("nuitka", JValue.obj [("warmup", JValue.arr []), ("benchmark", JValue.arr [])]),
    ("cpython", JValue.obj [("warmup", JValue.arr []), ("benchmark", JValue.arr [])])]

/-- Counterexample to C3 as stated: parsing succeeds on a content whose
"warmup" and "benchmark" arrays are empty, so non-emptiness is not rejected
at parse time. -/
theorem parse_stats_accepts_empty_phase_arrays :
    parse_stats emptyPhasesJson =
      some (⟨"nuitka", JValue.arr [], JValue.arr []⟩,
        ⟨"cpython", JValue.arr [], JValue.arr []⟩) := rfl

/-- C3 (amended): parsing fails unless the top-level JSON object contains both
the "nuitka" and "cpython" keys, each holding "warmup" and "benchmark"
entries; the non-emptiness (and element types) of those entries is not checked
at parse time. -/
theorem parse_stats_isSome_iff_shape_ok (stats : JValue) :
    (parse_stats stats).isSome = true ↔ stats_shape_ok stats := by
  unfold parse_stats stats_shape_ok
  cases hn : stats.item "nuitka" with
  | none => simp [hn]
  | some n =>
    cases hc : stats.item "cpython" with
    | none => simp [hn, hc]
    | some c =>
      cases hnw : n.item "warmup" with
      | none => simp [hn, hc, hnw]
      | some nw =>
        cases hnb : n.item "benchmark" with
        | none => simp [hn, hc, hnw, hnb]
        | some nb =>
          cases hcw : c.item "warmup" with
          | none => simp [hn, hc, hnw, hnb, hcw]
          | some cw =>
            cases hcb : c.item "benchmark" with
            | none => simp [hn, hc, hnw, hnb, hcw, hcb]
            | some cb => simp [hn, hc, hnw, hnb, hcw, hcb]

/-- Python `s.split(sep)` for a single-character separator: splitting an empty
string yields one empty field, and adjacent separators yield empty fields. -/
def pySplit (sep : Char) : List Char → List (List Char)
  | [] => [[]]
  | c :: cs =>
    if c = sep then [] :: pySplit sep cs
    else
      match pySplit sep cs with
      | r :: rs => (c :: r) :: rs
      | [] => [[c]]

/-- Accumulator for `pyInt`: consume decimal digits, failing on any other
character. -/
def digitsValAux : Nat → List Char → Option Nat
  | acc, [] => some acc
  | acc, c :: cs =>
    if c.isDigit then digitsValAux (acc * 10 + (c.toNat - 48)) cs else none

/-- Python `int(s)` on a plain (optionally sign-prefixed) decimal string:
an empty digit sequence or a non-digit character raises `ValueError`. -/
def pyInt (s : String) : Option ℤ :=
  match s.toList with
  | [] => none
  | '-' :: rest => if rest = [] then none else (digitsValAux 0 rest).map (fun n => -(n : ℤ))
  | '+' :: rest => if rest = [] then none else (digitsValAux 0 rest).map (fun n => (n : ℤ))
  | cs => (digitsValAux 0 cs).map (fun n => (n : ℤ))

/-- Python `pathlib.Path(...).stem`: with i the index of the last dot in the
file name, the stem is the part before position i when 0 < i < len - 1, and
the whole name otherwise (no dot, hidden file, or trailing dot). -/
def pyStem (s : String) : String :=
  match (s.toList.reverse).findIdx? (fun c => c = '.') with
  | none => s
  | some j =>
    let i := s.toList.length - 1 - j
    if 0 < i ∧ i < s.toList.length - 1 then String.mk (s.toList.take i) else s

/-- Embedding of `Benchmark.parse_file_name` (src/sampler.py lines 26-31):
split the stem on "-" into exactly three fields (any other count raises a
tuple-unpacking error), split the version field on ".", and read its first
two components as integers. -/
def parse_file_name (file_name : String) : Option (String × String × (ℤ × ℤ)) :=
  match pySplit '-' file_name.toList with
  | [t, nv, pv] =>
    match (pySplit '.' pv).get? 0, (pySplit '.' pv).get? 1 with
    | some a, some b =>
      match pyInt (String.mk a), pyInt (String.mk b) with
      | some x, some y => some (String.mk t, String.mk nv, (x, y))
      | _, _ => none
    | _, _ => none
  | _ => none

/-- C4: Parsing the file name "target-nuitka1.3-3.11.json" (stem split on
hyphens, then the version segment split on dots with its first two components
read as integers) yields target "target", compiler version "nuitka1.3" and
python version (3, 11). -/
theorem parse_file_name_example :
    parse_file_name (pyStem "target-nuitka1.3-3.11.json") =
      some ("target", "nuitka1.3", ((3 : ℤ), (11 : ℤ))) := by decide

/-- Python `s.strip(chars)`: remove all leading and all trailing characters
that belong to the given character set (not a prefix string removal). -/
def pyStrip (chars : List Char) (s : String) : String :=
  String.mk ((((s.toList.dropWhile (· ∈ chars)).reverse).dropWhile (· ∈ chars)).reverse)

/-- The display-name computation in `Benchmark.from_path` (src/sampler.py line
67): `benchmark_name.strip("bm_")`, i.e. stripping over the character set
`{b, m, _}`. -/
def strip_bm (s : String) : String := pyStrip ['b', 'm', '_'] s

/-- The `Benchmark` dataclass as built by `Benchmark.from_path`: parsed name
fields, the raw JSON, and the two per-mode stats objects. -/
structure Benchmark where
  target : String
  nuitka_version : String
  python_version : ℤ × ℤ
  file_json : JValue
  nuitka_stats : RawStats
  cpython_stats : RawStats
  benchmark_name : String

/-- Embedding of `Benchmark.from_path` (src/sampler.py lines 50-68) on the
data it reads from disk: the file size (an empty file raises), the file stem,
the loaded JSON, and the benchmark directory name. -/
def from_path_pure (file_size : Nat) (stem : String) (file_json : JValue)
    (benchmark_name : String) : Option Benchmark :=
  if file_size > 0 then
    match parse_file_name stem, parse_stats file_json with
    | some (t, nv, pv), some (ns, cs) =>
      some ⟨t, nv, pv, file_json, ns, cs, strip_bm benchmark_name⟩
    | _, _ => none
  else none

/-- A well-formed result-file content used for concrete evaluations. -/
def sampleResultJson : JValue :=
  JValue.obj [("nuitka", JValue.obj [("warmup", JValue.arr [JValue.num 1]),
      ("benchmark", JValue.arr [JValue.num 1])]),
    ("cpython", JValue.obj [("warmup", JValue.arr [JValue.num 2]),
      ("benchmark", JValue.arr [JValue.num 2])])]

/-- C10: The displayed benchmark name is the directory name with all leading
and trailing characters from the set left brace b, m, underscore right brace
removed (Python `str.strip("bm_")` semantics), not just a single leading
"bm_" prefix removal: "bm_bench" yields "ench" while "bm_concurrent_imap"
yields "concurrent_imap", and `from_path` stores the stripped name. -/
theorem strip_bm_strips_character_set :
    strip_bm "bm_bench" = "ench" ∧ strip_bm "bm_concurrent_imap" = "concurrent_imap" ∧
      (from_path_pure 10 "t-n-3.11" sampleResultJson "bm_bench").map
        (fun r => r.benchmark_name) = some "ench" := by
  refine ⟨by decide, by decide, ?_⟩
  decide

/-- Decimal digit characters of a natural number, most significant first; the
fuel argument only bounds the recursion depth. -/
def natDigitsAux : Nat → Nat → List Char
  | 0, _ => []
  | fuel + 1, n =>
    if n < 10 then [Nat.digitChar n]
    else natDigitsAux fuel (n / 10) ++ [Nat.digitChar (n % 10)]

/-- Decimal rendering of a natural number. -/
def natDigits (n : Nat) : List Char := natDigitsAux (n + 1) n

/-- Two-digit zero-padded rendering of a remainder below 100. -/
def twoPad (k : Nat) : List Char :=
  if k < 10 then ['0', Nat.digitChar k] else natDigits k

/-- Fixed-point rendering of n/100 with exactly two decimal places. -/
def intFixed2 (n : ℤ) : List Char :=
  (if n < 0 then ['-'] else []) ++ natDigits (n.natAbs / 100) ++ ['.'] ++ twoPad (n.natAbs % 100)

/-- Python f-string `{x:.2f}`: the value scaled by 100 and rounded to the
nearest integer, rendered with two decimal places. Exact for values
representable in hundredths; binary floating-point rounding artifacts of
CPython are not modelled. -/
def fmt2 (q : ℚ) : String := String.mk (intFixed2 (round (q * 100)))

/-- Embedding of `format_benchmark_stat` (src/sampler.py lines 114-123):
faster compiled result is tagged green with the gain percentage, slower is
tagged red with the loss percentage, a tie prints the bare number. -/
def format_benchmark_stat (nuitka cpython : ℚ) : String :=
  if nuitka < cpython then
    fmt2 nuitka ++ " +[green]" ++ fmt2 ((cpython / nuitka) * 100 - 100) ++ "%[/green]"
  else if nuitka > cpython then
    fmt2 nuitka ++ " -[red]" ++ fmt2 ((nuitka / cpython) * 100 - 100) ++ "%[/red]"
  else fmt2 nuitka

/-- C5: For the inputs cpython = 10.00 and nuitka = 8.00, the comparison
formatter reports nuitka as faster, showing the nuitka value with a gain
percentage of (10/8*100-100) = 25.00% and the green (faster) marker. -/
theorem format_benchmark_stat_green_example :
    format_benchmark_stat 8 10 = "8.00 +[green]25.00%[/green]" := by
  have hperc : ((10 : ℚ) / 8) * 100 - 100 = 25 := by norm_num
  have h8 : round ((8 : ℚ) * 100) = 800 := by norm_num
  have h25 : round ((25 : ℚ) * 100) = 2500 := by norm_num
  simp only [format_benchmark_stat, if_pos (by norm_num : (8 : ℚ) < 10), hperc, fmt2, h8, h25]
  decide

theorem natDigitsAux_digits : ∀ (fuel n : Nat), ∀ c ∈ natDigitsAux fuel n, c.isDigit = true := by
  have hdc : ∀ m, m < 10 → (Nat.digitChar m).isDigit = true := by decide
  intro fuel
  induction fuel with
  | zero => intro n c hc; simp [natDigitsAux] at hc
  | succ f ih =>
    intro n c hc
    by_cases hn : n < 10
    · rw [natDigitsAux, if_pos hn] at hc
      rw [List.mem_singleton] at hc
      subst hc
      exact hdc n hn
    · rw [natDigitsAux, if_neg hn] at hc
      rcases List.mem_append.mp hc with h | h
      · exact ih (n / 10) c h
      · rw [List.mem_singleton] at h
        subst h
        exact hdc (n % 10) (Nat.mod_lt n (by norm_num))

theorem intFixed2_chars (n : ℤ) :
    ∀ c ∈ intFixed2 n, c.isDigit = true ∨ c = '.' ∨ c = '-' := by
  intro c hc
  unfold intFixed2 at hc
  rcases List.mem_append.mp hc with h | h
  · rcases List.mem_append.mp h with h2 | h2
    · rcases List.mem_append.mp h2 with h3 | h3
      · by_cases hneg : n < 0
        · rw [if_pos hneg, List.mem_singleton] at h3
          exact Or.inr (Or.inr h3)
        · rw [if_neg hneg] at h3
          exact absurd h3 (List.not_mem_nil c)
      · exact Or.inl (natDigitsAux_digits _ _ c h3)
    · rw [List.mem_singleton] at h2
      exact Or.inr (Or.inl h2)
  · unfold twoPad at h
    by_cases hk : n.natAbs % 100 < 10
    · rw [if_pos hk] at h
      rcases List.mem_cons.mp h with h2 | h2
      · subst h2; left; decide
      · rw [List.mem_singleton] at h2
        subst h2
        exact Or.inl (by
          have hdc : ∀ m, m < 10 → (Nat.digitChar m).isDigit = true := by decide
          exact hdc _ hk)
    · rw [if_neg hk] at h
      exact Or.inl (natDigitsAux_digits _ _ c h)

/-- C6: For every pair of equal inputs (nuitka equal to cpython), the
comparison formatter returns only the bare number formatted to two decimals;
its characters are digits, a decimal point or a minus sign, so it carries no
percentage and no color marker. -/
theorem format_benchmark_stat_equal_inputs (nuitka cpython : ℚ) (h : nuitka = cpython) :
    format_benchmark_stat nuitka cpython = String.mk (intFixed2 (round (nuitka * 100))) ∧
      ∀ c ∈ intFixed2 (round (nuitka * 100)), c.isDigit = true ∨ c = '.' ∨ c = '-' := by
  subst h
  refine ⟨?_, intFixed2_chars _⟩
  rw [format_benchmark_stat, if_neg (lt_irrefl nuitka), if_neg (lt_irrefl nuitka)]
  rfl

/-- Witness for C6 at the equal inputs 7 and 7. -/
theorem format_benchmark_stat_equal_inputs_witness :
    format_benchmark_stat 7 7 = String.mk (intFixed2 (round ((7 : ℚ) * 100))) ∧
      ∀ c ∈ intFixed2 (round ((7 : ℚ) * 100)), c.isDigit = true ∨ c = '.' ∨ c = '-' :=
  format_benchmark_stat_equal_inputs 7 7 rfl

/-- Python exception kinds raised by the environment resolver. -/
inductive PyError where
  | runtimeError (msg : String) : PyError
  | fileNotFoundError (msg : String) : PyError
deriving DecidableEq

/-- The facts about the host consulted by the environment resolver: whether a
virtual environment is already active, the resolved current interpreter path,
the exit code of the venv-creation subprocess, whether the created venv
directory exists afterwards, and whether the interpreter executable inside it
exists (the last is recorded but never consulted by the code). -/
structure VenvEnv where
  is_in_venv : Bool
  sys_executable : String
  venv_create_returncode : Int
  venv_dir_exists : Bool
  exe_exists : Bool

/-- Embedding of `resolve_venv_path` (src/Utilities.py lines 52-65): inside a
venv, return the current interpreter; otherwise create "venv", raising
`RuntimeError` on a non-zero exit code, then return the interpreter path if
the "venv" directory exists and raise `FileNotFoundError` if it does not. -/
def resolve_venv_path (env : VenvEnv) : Except PyError String :=
  if env.is_in_venv then Except.ok env.sys_executable
  else if env.venv_create_returncode ≠ 0 then
    Except.error (PyError.runtimeError "Failed to create venv")
  else if env.venv_dir_exists then Except.ok "venv/Scripts/python.exe"
  else Except.error (PyError.fileNotFoundError "Failed to create venv")

/-- Embedding of `create_venv_with_version` (src/Utilities.py lines 68-77):
create "{version}_venv" with the launcher, raising `RuntimeError` on a
non-zero exit code, then return the interpreter path if the directory exists
and raise `FileNotFoundError` if it does not. -/
def create_venv_with_version (version : String) (env : VenvEnv) : Except PyError String :=
  if env.venv_create_returncode ≠ 0 then
    Except.error (PyError.runtimeError "Failed to create venv")
  else if env.venv_dir_exists then Except.ok (version ++ "_venv/Scripts/python.exe")
  else Except.error (PyError.fileNotFoundError "Failed to create venv")

/-- An environment where creation succeeds and the venv directory exists but
the expected interpreter executable inside it is absent. -/
def venvEnvNoExe : VenvEnv :=
  ⟨false, "C:/python.exe", 0, true, false⟩

/-- Counterexample to C8 as stated: with the venv directory present but the
interpreter executable absent, both resolvers return a resolved path instead
of failing, so absence of the executable is not detected. -/
theorem venv_resolvers_ignore_missing_executable :
    resolve_venv_path venvEnvNoExe = Except.ok "venv/Scripts/python.exe" ∧
      create_venv_with_version "3.11" venvEnvNoExe =
        Except.ok ("3.11" ++ "_venv/Scripts/python.exe") ∧
      venvEnvNoExe.exe_exists = false :=
  ⟨rfl, rfl, rfl⟩

/-- C8 (amended): outside an active venv, the resolvers fail with a
`RuntimeError` when the venv-creation subprocess exits non-zero, fail with a
`FileNotFoundError` when the created venv directory is absent afterwards, and
return a resolved interpreter path exactly when neither happens; the existence
of the interpreter executable itself is never checked. -/
theorem venv_resolver_error_conditions (version : String) (env : VenvEnv)
    (h : env.is_in_venv = false) :
    ((∃ p, resolve_venv_path env = Except.ok p) ↔
      env.venv_create_returncode = 0 ∧ env.venv_dir_exists = true) ∧
    ((∃ p, create_venv_with_version version env = Except.ok p) ↔
      env.venv_create_returncode = 0 ∧ env.venv_dir_exists = true) ∧
    (env.venv_create_returncode ≠ 0 →
      resolve_venv_path env = Except.error (PyError.runtimeError "Failed to create venv") ∧
      create_venv_with_version version env =
        Except.error (PyError.runtimeError "Failed to create venv")) ∧
    (env.venv_create_returncode = 0 → env.venv_dir_exists = false →
      resolve_venv_path env = Except.error (PyError.fileNotFoundError "Failed to create venv") ∧
      create_venv_with_version version env =
        Except.error (PyError.fileNotFoundError "Failed to create venv")) := by
  obtain ⟨iv, se, rc, dir, exe⟩ := env
  simp only at h
  subst h
  refine ⟨?_, ?_, ?_, ?_⟩ <;>
    simp [resolve_venv_path, create_venv_with_version] <;>
    by_cases hrc : rc = 0 <;>
    cases dir <;>
    simp [hrc]

/-- Witness for C8 at a concrete environment outside a venv where creation
fails with exit code 1. -/
theorem venv_resolver_error_conditions_witness :
    ((∃ p, resolve_venv_path ⟨false, "py", 1, false, false⟩ = Except.ok p) ↔
      (1 : Int) = 0 ∧ false = true) ∧
    ((∃ p, create_venv_with_version "3.11" ⟨false, "py", 1, false, false⟩ = Except.ok p) ↔
      (1 : Int) = 0 ∧ false = true) ∧
    ((1 : Int) ≠ 0 →
      resolve_venv_path ⟨false, "py", 1, false, false⟩ =
        Except.error (PyError.runtimeError "Failed to create venv") ∧
      create_venv_with_version "3.11" ⟨false, "py", 1, false, false⟩ =
        Except.error (PyError.runtimeError "Failed to create venv")) ∧
    ((1 : Int) = 0 → false = false →
      resolve_venv_path ⟨false, "py", 1, false, false⟩ =
        Except.error (PyError.fileNotFoundError "Failed to create venv") ∧
      create_venv_with_version "3.11" ⟨false, "py", 1, false, false⟩ =
        Except.error (PyError.fileNotFoundError "Failed to create venv")) :=
  venv_resolver_error_conditions "3.11" ⟨false, "py", 1, false, false⟩ rfl

/-- One step of the aggregation loop (src/sampler.py lines 109-111):
`results_container.setdefault(python_version, []).append(benchmark_result)` —
append to the existing bucket when the version key is present, otherwise add a
new bucket at the end (Python dicts preserve insertion order). -/
def setdefault_append (c : List ((ℤ × ℤ) × List Benchmark)) (k : ℤ × ℤ) (b : Benchmark) :
    List ((ℤ × ℤ) × List Benchmark) :=
  if k ∈ c.map Prod.fst then
    c.map (fun p => if p.1 = k then (p.1, p.2 ++ [b]) else p)
  else c ++ [(k, [b])]

/-- The aggregation loop (src/sampler.py lines 92-111): fold every parsed
record into the container, bucketed by interpreter version. -/
def results_container (records : List Benchmark) : List ((ℤ × ℤ) × List Benchmark) :=
  records.foldl (fun c b => setdefault_append c b.python_version b) []

/-- The sort key comparison of src/sampler.py line 126: `reverse=True` on the
version tuple, compared lexicographically as Python compares tuples. -/
def versionGt (a b : ℤ × ℤ) : Bool :=
  b.1 < a.1 || (a.1 = b.1 && b.2 < a.2)

/-- Stable insertion used to model Python `sorted(..., reverse=True)`. -/
def insertVersionDesc (p : (ℤ × ℤ) × List Benchmark) :
    List ((ℤ × ℤ) × List Benchmark) → List ((ℤ × ℤ) × List Benchmark)
  | [] => [p]
  | q :: qs => if versionGt p.1 q.1 then p :: q :: qs else q :: insertVersionDesc p qs

/-- Model of `sorted(results_container.items(), key=..., reverse=True)`
(src/sampler.py line 126) as a stable insertion sort on the bucket list. -/
def sortVersionDesc : List ((ℤ × ℤ) × List Benchmark) → List ((ℤ × ℤ) × List Benchmark)
  | [] => []
  | p :: ps => insertVersionDesc p (sortVersionDesc ps)

/-- The per-version table loop input (src/sampler.py lines 126-145): one table
is rendered for each entry of the sorted container, one row per record in the
entry's bucket. -/
def sorted_results (records : List Benchmark) : List ((ℤ × ℤ) × List Benchmark) :=
  sortVersionDesc (results_container records)

theorem mem_insertVersionDesc (p x : (ℤ × ℤ) × List Benchmark) :
    ∀ l, x ∈ insertVersionDesc p l ↔ x = p ∨ x ∈ l := by
  intro l
  induction l with
  | nil => simp [insertVersionDesc]
  | cons q qs ih =>
    simp only [insertVersionDesc]
    by_cases hgt : versionGt p.1 q.1
    · rw [if_pos hgt]
      simp [List.mem_cons]
    · rw [if_neg hgt]
      simp only [List.mem_cons, ih]
      tauto

theorem mem_sortVersionDesc (x : (ℤ × ℤ) × List Benchmark) :
    ∀ l, x ∈ sortVersionDesc l ↔ x ∈ l := by
  intro l
  induction l with
  | nil => simp [sortVersionDesc]
  | cons p ps ih =>
    simp only [sortVersionDesc, mem_insertVersionDesc, ih, List.mem_cons]

theorem keys_setdefault_append (c : List ((ℤ × ℤ) × List Benchmark)) (k : ℤ × ℤ)
    (b : Benchmark) (v : ℤ × ℤ) (hv : v ∈ (setdefault_append c k b).map Prod.fst) :
    v ∈ c.map Prod.fst ∨ v = k := by
  unfold setdefault_append at hv
  by_cases hk : k ∈ c.map Prod.fst
  · rw [if_pos hk] at hv
    rw [List.map_map] at hv
    left
    rcases List.mem_map.mp hv with ⟨p, hp, hpv⟩
    apply List.mem_map.mpr
    refine ⟨p, hp, ?_⟩
    by_cases hpk : p.1 = k
    · simpa [Function.comp_def, hpk] using hpv
    · simpa [Function.comp_def, hpk] using hpv
  · rw [if_neg hk, List.map_append] at hv
    rcases List.mem_append.mp hv with h | h
    · exact Or.inl h
    · right
      simpa using h

theorem keys_results_container_aux (v : ℤ × ℤ) :
    ∀ (records : List Benchmark) (acc : List ((ℤ × ℤ) × List Benchmark)),
    v ∈ ((records.foldl (fun c b => setdefault_append c b.python_version b) acc).map Prod.fst) →
    v ∈ acc.map Prod.fst ∨ ∃ r ∈ records, r.python_version = v := by
  intro records
  induction records with
  | nil => intro acc hv; exact Or.inl hv
  | cons r rs ih =>
    intro acc hv
    rcases ih (setdefault_append acc r.python_version r) hv with h | h
    · rcases keys_setdefault_append acc r.python_version r v h with h2 | h2
      · exact Or.inl h2
      · exact Or.inr ⟨r, List.mem_cons_self _ _, h2.symm⟩
    · obtain ⟨x, hx, hxv⟩ := h
      exact Or.inr ⟨x, List.mem_cons_of_mem _ hx, hxv⟩

/-- C9: For every interpreter version for which zero parsed records exist, the
aggregation produces no bucket and hence no table and no table row for that
version — grouping creates a version bucket only when at least one record with
that version exists — and the aggregation is a total function (no crash). -/
theorem sorted_results_no_bucket_for_absent_version (records : List Benchmark)
    (v : ℤ × ℤ) (h : ∀ r ∈ records, r.python_version ≠ v) :
    v ∉ (sorted_results records).map Prod.fst := by
  intro hv
  rcases List.mem_map.mp hv with ⟨p, hp, hpv⟩
  unfold sorted_results at hp
  rw [mem_sortVersionDesc] at hp
  have hmem : v ∈ (results_container records).map Prod.fst :=
    List.mem_map.mpr ⟨p, hp, hpv⟩
  rcases keys_results_container_aux v records [] hmem with h2 | h2
  · simp at h2
  · obtain ⟨r, hr, hrv⟩ := h2
    exact h r hr hrv

/-- Witness for C9: one record with interpreter version (3, 11); version
(3, 12) gets no bucket in the sorted results. -/
theorem sorted_results_no_bucket_for_absent_version_witness :
    ((3 : ℤ), (12 : ℤ)) ∉
      (sorted_results [⟨"t", "n", (3, 11), JValue.null,
        ⟨"nuitka", JValue.arr [], JValue.arr []⟩,
        ⟨"cpython", JValue.arr [], JValue.arr []⟩, "x"⟩]).map Prod.fst :=
  sorted_results_no_bucket_for_absent_version
    [⟨"t", "n", (3, 11), JValue.null,
      ⟨"nuitka", JValue.arr [], JValue.arr []⟩,
      ⟨"cpython", JValue.arr [], JValue.arr []⟩, "x"⟩]
    ((3 : ℤ), (12 : ℤ))
    (by
      intro r hr
      rw [List.mem_singleton] at hr
      subst hr
      decide)
